import Mathlib

/-!
# Verification of the cvm-benchmark interactive startup detector

Shallow embedding of `src/benchmarks/interactive-pty.ts` (the interactive
PTY startup state machine), the version/error extraction helpers, and the
aggregation logic of `src/core/benchmark-runner.ts`.

Strings are modelled as `List Char`; each definition mirrors the JavaScript
source it embeds (JS `String.prototype.includes`, the concrete regexes with
their leftmost-match semantics, `Array.prototype.slice`, `Math.round`,
population variance, ...).  Timers (`setTimeout`) are modelled by explicit
deadlines in the trial state; the scheduler idealizes callbacks as firing
exactly at their deadline, and a `Promise` settles with the first `resolve`
call (later calls are no-ops), exactly as in the JS semantics.
-/

namespace CvmBenchmark

/-- Convert a Lean string literal to the `List Char` representation used
throughout the model. -/
def str (x : String) : List Char := x.data

/-- JS `\s` character class (also the set trimmed by `String.prototype.trim`). -/
def jsWs (c : Char) : Bool :=
  c = ' ' || c = '\t' || c = '\n' || c = '\r' ||
  c = '\x0b' || c = '\x0c' ||
  c = '\u00a0' || c = '\u1680' ||
  ('\u2000' ≤ c && c ≤ '\u200a') ||
  c = '\u2028' || c = '\u2029' || c = '\u202f' || c = '\u205f' ||
  c = '\u3000' || c = '\ufeff'

/-- `needle` is an initial segment of `hay`. -/
def isStart : List Char → List Char → Bool
  | [], _ => true
  | _ :: _, [] => false
  | a :: ns, b :: hs => a = b && isStart ns hs

/-- JS `hay.includes(needle)`: `needle` occurs contiguously inside `hay`. -/
def hasSub (hay needle : List Char) : Bool :=
  match hay with
  | [] => needle.isEmpty
  | _ :: t => isStart needle hay || hasSub t needle

theorem isStart_append {n h : List Char} (e : List Char)
    (hs : isStart n h = true) : isStart n (h ++ e) = true := by
  induction n generalizing h with
  | nil => simp [isStart]
  | cons a ns ih =>
    cases h with
    | nil => simp [isStart] at hs
    | cons b hs' =>
      simp only [isStart, Bool.and_eq_true] at hs ⊢
      exact ⟨hs.1, ih hs.2⟩

/-- Substring containment is monotone under appending on the right. -/
theorem hasSub_append {h n : List Char} (e : List Char)
    (hh : hasSub h n = true) : hasSub (h ++ e) n = true := by
  induction h with
  | nil =>
    simp only [hasSub] at hh
    cases n with
    | nil => cases e <;> simp [hasSub, isStart]
    | cons a ns => simp [List.isEmpty] at hh
  | cons b t ih =>
    simp only [hasSub, Bool.or_eq_true] at hh
    rcases hh with hh | hh
    · simp only [List.cons_append, hasSub, Bool.or_eq_true]
      exact Or.inl (isStart_append e hh)
    · simp only [List.cons_append, hasSub, Bool.or_eq_true]
      exact Or.inr (ih hh)

/-- Body of a CSI match after `ESC[`: a maximal run of `[0-9;]` followed by
one ASCII letter; returns the remainder after the letter, or `none` when the
regex `\x1b\[[0-9;]*[a-zA-Z]` fails at this position. -/
def csiEnd (l : List Char) : Option (List Char) :=
  match l.dropWhile (fun d => d.isDigit || d = ';') with
  | d :: rest => if d.isAlpha then some rest else none
  | [] => none

/-- Fuel-indexed worker for `stripAnsi` (structural recursion on the fuel so
that the function reduces inside the kernel; every step consumes at least
one character, so fuel `l.length` is always sufficient and the fuel-0 case
is unreachable). -/
def stripAnsiGo : Nat → List Char → List Char
  | 0, l => l
  | _ + 1, [] => []
  | fuel + 1, '\x1b' :: '[' :: rest2 =>
    match csiEnd rest2 with
    | some rest3 => stripAnsiGo fuel rest3
    | none => '\x1b' :: stripAnsiGo fuel ('[' :: rest2)
  | fuel + 1, c :: rest => c :: stripAnsiGo fuel rest

/-- Greedy ANSI-CSI stripper: the model of
`output.replace(/\x1b\[[0-9;]*[a-zA-Z]/g, '')`.  A match starts at `ESC`,
requires `[`, consumes a maximal run of `[0-9;]`, and must end with one
ASCII letter; a failed match leaves the `ESC` in place and scanning resumes
at the next character (faithful to the JS global-replace semantics, since a
match can only start at an `ESC`). -/
def stripAnsi (l : List Char) : List Char := stripAnsiGo l.length l

/-- The prompt test `/>\s/.test(stripped)`: some `>` immediately followed
by a JS whitespace character. -/
def promptTest : List Char → Bool
  | [] => false
  | [_] => false
  | a :: b :: rest => (a = '>' && jsWs b) || promptTest (b :: rest)

/-- Maximal nonempty run of characters satisfying `p`
(the deterministic reading of a greedy `X+` whose class is disjoint from
the character that must follow, which holds for every regex in the source). -/
def run1 (p : Char → Bool) (l : List Char) : Option (List Char × List Char) :=
  let r := l.takeWhile p
  if r.isEmpty then none else some (r, l.dropWhile p)

/-- Consume the literal `pat` from the head of `l` (case-sensitive). -/
def lit : List Char → List Char → Option (List Char)
  | [], l => some l
  | _ :: _, [] => none
  | a :: ps, b :: ls => if a = b then lit ps ls else none

/-- Consume the literal `pat` case-insensitively (ASCII folding, the JS `/i`
flag on the ASCII-only literals appearing in the source regexes). -/
def icLit : List Char → List Char → Option (List Char)
  | [], l => some l
  | _ :: _, [] => none
  | a :: ps, b :: ls => if a.toLower = b.toLower then icLit ps ls else none

/-- Parse `\d+\.\d+\.\d+` at the head of `l`, returning the matched token
and the rest. -/
def matchVer (l : List Char) : Option (List Char × List Char) := do
  let (d1, r1) ← run1 Char.isDigit l
  match r1 with
  | '.' :: r2 => do
    let (d2, r3) ← run1 Char.isDigit r2
    match r3 with
    | '.' :: r4 => do
      let (d3, r5) ← run1 Char.isDigit r4
      pure (d1 ++ '.' :: d2 ++ '.' :: d3, r5)
    | _ => none
  | _ => none

/-- Scan `l` position by position (leftmost match wins, the JS `match`
semantics) and return the first success of the at-position matcher `p`. -/
def firstPos (p : List Char → Option (List Char)) : List Char → Option (List Char)
  | [] => p []
  | c :: rest =>
    match p (c :: rest) with
    | some v => some v
    | none => firstPos p rest

/-- `/(\d+\.\d+\.\d+)\s+or higher/i` at a position. -/
def verOrHigherAt (l : List Char) : Option (List Char) := do
  let (ver, r1) ← matchVer l
  let (_, r2) ← run1 jsWs r1
  let _ ← icLit (str "or higher") r2
  pure ver

/-- `/version\s+\((\d+\.\d+\.\d+)/i` at a position. -/
def versionParenAt (l : List Char) : Option (List Char) := do
  let r1 ← icLit (str "version") l
  let (_, r2) ← run1 jsWs r1
  let r3 ← lit (str "(") r2
  let (ver, _) ← matchVer r3
  pure ver

/-- `/requires\s+(\d+\.\d+\.\d+)/i` at a position. -/
def requiresVerAt (l : List Char) : Option (List Char) := do
  let r1 ← icLit (str "requires") l
  let (_, r2) ← run1 jsWs r1
  let (ver, _) ← matchVer r2
  pure ver

/-- `/minimum\s+version[:\s]+(\d+\.\d+\.\d+)/i` at a position. -/
def minimumVersionAt (l : List Char) : Option (List Char) := do
  let r1 ← icLit (str "minimum") l
  let (_, r2) ← run1 jsWs r1
  let r3 ← icLit (str "version") r2
  let (_, r4) ← run1 (fun c => c = ':' || jsWs c) r3
  let (ver, _) ← matchVer r4
  pure ver

/-- `\d+\.\d+\.\d+` directly followed by `+`. -/
def verPlus (l : List Char) : Option (List Char) := do
  let (ver, r) ← matchVer l
  match r with
  | '+' :: _ => pure ver
  | _ => none

/-- `/v?(\d+\.\d+\.\d+)\+/` at a position (case-sensitive; the optional `v`
is tried first, and when the head is `v` the `v`-less alternative cannot
match a version at the same position). -/
def vVerPlusAt (l : List Char) : Option (List Char) :=
  match l with
  | 'v' :: rest => verPlus rest
  | _ => verPlus l

/-- The five minimum-version patterns of the source, in source order. -/
def matchVerOrHigher (l : List Char) : Option (List Char) := firstPos verOrHigherAt l
def matchVersionParen (l : List Char) : Option (List Char) := firstPos versionParenAt l
def matchRequiresVer (l : List Char) : Option (List Char) := firstPos requiresVerAt l
def matchMinimumVersion (l : List Char) : Option (List Char) := firstPos minimumVersionAt l
def matchVVerPlus (l : List Char) : Option (List Char) := firstPos vVerPlusAt l

/-- The configured expected minimum version constant. -/
def EXPECTED_MIN_VERSION : List Char := str "1.0.24"

/-- `versionMatch = p1 || p2 || p3 || p4 || p5; minVersion || EXPECTED_MIN_VERSION`:
the ordered first-match-wins chain with its fallback. -/
def extractMinVersion (clean : List Char) : List Char :=
  (matchVerOrHigher clean <|> matchVersionParen clean <|> matchRequiresVer clean <|>
    matchMinimumVersion clean <|> matchVVerPlus clean).getD EXPECTED_MIN_VERSION

/-- JS `Array.prototype.slice`-compatible helper over lists:
`slice start stop` keeps indices `start ≤ i < stop`. -/
def sliceList (start stop : Nat) (l : List (List Char)) : List (List Char) :=
  (l.drop start).take (stop - start)

/-- JS `String.prototype.trim` on both ends. -/
def trimBoth (l : List Char) : List Char :=
  ((l.dropWhile jsWs).reverse.dropWhile jsWs).reverse

/-- A line of the cleaned output containing one of the four version-gate
trigger phrases (`lines.findIndex` predicate of the source). -/
def errLine (l : List Char) : Bool :=
  hasSub l (str "needs update") || hasSub l (str "newer version") ||
  hasSub l (str "requires") || hasSub l (str "minimum version")

/-- The version-gate error condition on the raw accumulated output
(`output.includes(...)` over the four case-sensitive phrases). -/
def errPhrase (output : List Char) : Bool :=
  hasSub output (str "needs update") || hasSub output (str "newer version") ||
  hasSub output (str "requires") || hasSub output (str "minimum version")

/-- `errorLines = lines.slice(Math.max(0, errorStartIdx - 1), errorStartIdx + 6)`
followed by `join('\n').trim()`; when `findIndex` returns `-1` the JS slice
degenerates to `slice(0, 5)`. -/
def buildErrorMessage (clean : List Char) : List Char :=
  let lines := clean.splitOn '\n'
  let errorLines :=
    match lines.findIdx? errLine with
    | some i => sliceList (i - 1) (i + 6) lines
    | none => sliceList 0 5 lines
  trimBoth (List.intercalate ['\n'] errorLines)

/-- `/"session_id":"([a-f0-9-]+)"/` at a position. -/
def sessionIdAt (l : List Char) : Option (List Char) := do
  let r1 ← lit (str "\"session_id\":\"") l
  let (sid, r2) ← run1 (fun c => (('a' ≤ c && c ≤ 'f') || c.isDigit || c = '-')) r1
  match r2 with
  | '\"' :: _ => pure sid
  | _ => none

/-- First (leftmost) session-id match in the accumulated output. -/
def extractSessionId (output : List Char) : Option (List Char) :=
  firstPos sessionIdAt output

/-- The three terminal ready-signal byte sequences. -/
def bpSeq : List Char := str "\x1b[?2004h"
def focusSeq : List Char := str "\x1b[?1004h"
def trustText : List Char := str "Do you trust the files"

/-- `BenchmarkResultState` of `src/types/benchmark.ts`. -/
inductive ResState where
  | ready
  | error_detected
  | ui_then_exit
  | exited_early
  | timeout
  | failed
deriving DecidableEq, Repr

/-- The `signals` snapshot `{bracketedPaste, focusEvents, prompt}`. -/
structure Signals where
  bracketedPaste : Bool
  focusEvents : Bool
  prompt : Bool
deriving DecidableEq, Repr

/-- `BenchmarkRunResult`: the value a single trial's promise resolves with. -/
structure RunResult where
  time : Nat
  result : ResState
  reason : List Char
  signals : Option Signals
  exitCode : Option Int
  sessionId : Option (List Char)
  minVersionRequired : Option (List Char)
  errorMessage : Option (List Char)
  rawOutput : Option (List Char)
deriving DecidableEq, Repr

/-- Full state of one trial of `benchmarkInteractive`, including the pending
`setTimeout` deadlines.  `errorOutput` is ghost bookkeeping recording the
accumulated output at the moment the error branch fired (it is exactly the
`output` variable read by that branch); `resolved` models the trial's
promise, which keeps the first value it was resolved with. -/
structure TrialState where
  output : List Char
  bracketedPaste : Bool
  focusEvents : Bool
  prompt : Bool
  readyDetected : Bool
  errorDetected : Bool
  sessionId : Option (List Char)
  trustPromptHandled : Bool
  readyAt : Option Nat
  stabFired : Bool
  trustAt : Option Nat
  trustFired : Bool
  timeoutActive : Bool
  errorOutput : Option (List Char)
  resolved : Option RunResult
deriving DecidableEq, Repr

def initState : TrialState where
  output := []
  bracketedPaste := false
  focusEvents := false
  prompt := false
  readyDetected := false
  errorDetected := false
  sessionId := none
  trustPromptHandled := false
  readyAt := none
  stabFired := false
  trustAt := none
  trustFired := false
  timeoutActive := true
  errorOutput := none
  resolved := none

/-- First resolution wins: a JS promise keeps the value of the first
`resolve` call and ignores the rest. -/
def resolveOnce (cur : Option RunResult) (r : RunResult) : Option RunResult :=
  match cur with
  | some x => some x
  | none => some r

def snap (st : TrialState) : Signals :=
  ⟨st.bracketedPaste, st.focusEvents, st.prompt⟩

/-- `output += data`. -/
def appendOut (d : List Char) (st : TrialState) : TrialState :=
  { st with output := st.output ++ d }

/-- Trust-prompt handler: one-shot flag, schedules the carriage-return write
`setTimeout(() => ptyProcess.write('\r'), 100)`. -/
def trustStep (t : Nat) (st : TrialState) : TrialState :=
  if !st.trustPromptHandled && hasSub st.output trustText then
    { st with trustPromptHandled := true, trustAt := some (t + 100) }
  else st

/-- Session-id extraction (`if (!sessionId) { ... }`). -/
def sessionStep (st : TrialState) : TrialState :=
  if st.sessionId.isNone then { st with sessionId := extractSessionId st.output }
  else st

/-- The error resolution value built by the version-gate branch. -/
def mkErrorResult (t : Nat) (st : TrialState) : RunResult where
  time := t
  result := .error_detected
  reason := str "version_requirement_not_met"
  signals := none
  exitCode := none
  sessionId := st.sessionId
  minVersionRequired := some (extractMinVersion (stripAnsi st.output))
  errorMessage := some (buildErrorMessage (stripAnsi st.output))
  rawOutput := some ((stripAnsi st.output).take 2000)

/-- The version-gate branch: clears the timeout, kills the child and
resolves with the error result. -/
def errorResolveStep (t : Nat) (st : TrialState) : TrialState :=
  { st with errorDetected := true
            errorOutput := some st.output
            timeoutActive := false
            resolved := resolveOnce st.resolved (mkErrorResult t st) }

/-- `if (data.includes('\x1b[?2004h') && !signals.bracketedPaste)`. -/
def bpStep (d : List Char) (st : TrialState) : TrialState :=
  if hasSub d bpSeq && !st.bracketedPaste then { st with bracketedPaste := true }
  else st

/-- `if (data.includes('\x1b[?1004h') && !signals.focusEvents)`. -/
def focusStep (d : List Char) (st : TrialState) : TrialState :=
  if hasSub d focusSeq && !st.focusEvents then { st with focusEvents := true }
  else st

/-- Prompt detection on the ANSI-stripped latest chunk. -/
def promptStep (d : List Char) (st : TrialState) : TrialState :=
  if promptTest (stripAnsi d) && !st.prompt then { st with prompt := true }
  else st

/-- Ready-signal classifier: each signal is matched against the latest
chunk `d` only, the prompt after per-chunk ANSI stripping. -/
def signalsStep (d : List Char) (st : TrialState) : TrialState :=
  promptStep d (focusStep d (bpStep d st))

/-- Signal completion: schedules the 500 ms stabilization timer. -/
def readyStep (t : Nat) (st : TrialState) : TrialState :=
  if st.bracketedPaste && st.focusEvents && st.prompt && !st.readyDetected then
    { st with readyDetected := true, readyAt := some t }
  else st

/-- The tail of the `onData` handler after trust/session handling: the
version-gate error check (with its early return) runs BEFORE the ready
signals are examined. -/
def gateStep (t : Nat) (d : List Char) (st : TrialState) : TrialState :=
  if errPhrase st.output && !st.errorDetected then errorResolveStep t st
  else readyStep t (signalsStep d st)

/-- The `onData` handler, in source order: accumulate, trust prompt,
session id, version-gate error (with early return), ready signals,
signal-completion. -/
def handleData (t : Nat) (d : List Char) (st : TrialState) : TrialState :=
  gateStep t d (sessionStep (trustStep t (appendOut d st)))

def uiThenExitReason : List Char := str "showed prompt but immediately exited"

def exitedEarlyReason : List Char := str "process exited before showing prompt"

/-- The resolution value built by the `onExit` handler. -/
def mkExitResult (t : Nat) (code : Int) (res : ResState) (why : List Char)
    (st : TrialState) : RunResult where
  time := t
  result := res
  reason := why
  signals := some (snap st)
  exitCode := some code
  sessionId := st.sessionId
  minVersionRequired := none
  errorMessage := none
  rawOutput := none

/-- The resolving tail of the `onExit` handler (after the timeout clear). -/
def exitResolve (t : Nat) (code : Int) (st : TrialState) : TrialState :=
  if st.prompt then
    { st with resolved :=
        resolveOnce st.resolved (mkExitResult t code .ui_then_exit uiThenExitReason st) }
  else
    { st with resolved :=
        resolveOnce st.resolved (mkExitResult t code .exited_early exitedEarlyReason st) }

/-- The `onExit` handler: ignored after error or ready detection; otherwise
clears the timeout and resolves by last known prompt state. -/
def handleExit (t : Nat) (code : Int) (st : TrialState) : TrialState :=
  if st.errorDetected || st.readyDetected then st
  else exitResolve t code { st with timeoutActive := false }

/-- The three `setTimeout` timers of one trial. -/
inductive TimerKind where
  | tmo
  | trust
  | stab
deriving DecidableEq, Repr

/-- Pending deadline of the overall-timeout timer (`timeoutMs` after spawn,
active until cleared or fired). -/
def timeoutDl (timeoutMs : Nat) (st : TrialState) : Option Nat :=
  if st.timeoutActive then some timeoutMs else none

/-- Pending deadline of the trust-prompt carriage-return write. -/
def trustDl (st : TrialState) : Option Nat :=
  match st.trustAt with
  | some t => if st.trustFired then none else some t
  | none => none

/-- Pending deadline of the 500 ms stabilization timer. -/
def stabDl (st : TrialState) : Option Nat :=
  match st.readyAt with
  | some t => if st.stabFired then none else some (t + 500)
  | none => none

/-- Earlier-deadline candidate; the first argument wins ties. -/
def minCand : Option (Nat × TimerKind) → Option (Nat × TimerKind) →
    Option (Nat × TimerKind)
  | none, y => y
  | some x, none => some x
  | some x, some y => if y.1 < x.1 then some y else some x

/-- The pending timer with the smallest deadline. -/
def nextTimer (timeoutMs : Nat) (st : TrialState) : Option (Nat × TimerKind) :=
  minCand (minCand ((timeoutDl timeoutMs st).map (fun d => (d, .tmo)))
      ((trustDl st).map (fun d => (d, .trust))))
    ((stabDl st).map (fun d => (d, .stab)))

/-- The value resolved by the timeout callback (`Date.now() - startTime` at
the idealized fire instant is `timeoutMs`). -/
def mkTimeoutResult (timeoutMs : Nat) (st : TrialState) : RunResult where
  time := timeoutMs
  result := .timeout
  reason := str ("Benchmark timed out after " ++ toString timeoutMs ++ "ms")
  signals := some (snap st)
  exitCode := none
  sessionId := st.sessionId
  minVersionRequired := none
  errorMessage := none
  rawOutput := none

/-- The timeout-timer callback: kill the child and resolve `timeout`. -/
def fireTmo (timeoutMs : Nat) (st : TrialState) : TrialState :=
  { st with timeoutActive := false
            resolved := resolveOnce st.resolved (mkTimeoutResult timeoutMs st) }

/-- The value resolved by the stabilization callback (`Date.now() -
startTime` at the fire instant is `readyAt + 500`). -/
def mkReadyResult (st : TrialState) : RunResult where
  time := st.readyAt.getD 0 + 500
  result := .ready
  reason := str "all terminal signals received and process stable"
  signals := some (snap st)
  exitCode := none
  sessionId := st.sessionId
  minVersionRequired := none
  errorMessage := none
  rawOutput := none

/-- The stabilization-timer callback: clear the timeout, kill the child and
resolve `ready`. -/
def fireStab (st : TrialState) : TrialState :=
  { st with stabFired := true, timeoutActive := false
            resolved := resolveOnce st.resolved (mkReadyResult st) }

/-- The trust-prompt callback: performs the one carriage-return write. -/
def fireTrust (st : TrialState) : TrialState :=
  { st with trustFired := true }

def fireTimer (timeoutMs : Nat) (k : TimerKind) (st : TrialState) : TrialState :=
  match k with
  | .tmo => fireTmo timeoutMs st
  | .trust => fireTrust st
  | .stab => fireStab st

/-- Fire every pending timer whose deadline is at or before `t`, earliest
deadline first (at most three timers are ever pending). -/
def fireDue (timeoutMs t : Nat) : Nat → TrialState → TrialState
  | 0, st => st
  | fuel + 1, st =>
    match nextTimer timeoutMs st with
    | some (d, k) =>
      if d ≤ t then fireDue timeoutMs t fuel (fireTimer timeoutMs k st) else st
    | none => st

/-- Fire every remaining pending timer, earliest deadline first (used after
the child's event stream has ended). -/
def drainTimers (timeoutMs : Nat) : Nat → TrialState → TrialState
  | 0, st => st
  | fuel + 1, st =>
    match nextTimer timeoutMs st with
    | some (_, k) => drainTimers timeoutMs fuel (fireTimer timeoutMs k st)
    | none => st

/-- One external event of a trial: a PTY output chunk or the child's exit,
with its arrival time in ms since spawn. -/
inductive Event where
  | data (t : Nat) (chunk : List Char)
  | exited (t : Nat) (code : Int)
deriving DecidableEq, Repr

def Event.time : Event → Nat
  | .data t _ => t
  | .exited t _ => t

def handleEvent (st : TrialState) : Event → TrialState
  | .data t d => handleData t d st
  | .exited t c => handleExit t c st

/-- Event loop of one trial: before each external event, run the timer
callbacks that have come due. -/
def processEvents (timeoutMs : Nat) (st : TrialState) : List Event → TrialState
  | [] => st
  | e :: rest =>
    processEvents timeoutMs (handleEvent (fireDue timeoutMs e.time 3 st) e) rest

/-- The full model of one `benchmarkInteractive` trial: process the child's
events in order, then let the remaining timers fire.  The trial's promise
value is `(runTrialState _ _).resolved`. -/
def runTrialState (timeoutMs : Nat) (events : List Event) : TrialState :=
  drainTimers timeoutMs 3 (processEvents timeoutMs initState events)

/-- Concatenation of all output chunks of an event list. -/
def concatChunks : List Event → List Char
  | [] => []
  | .data _ d :: rest => d ++ concatChunks rest
  | .exited _ _ :: rest => concatChunks rest

/-- JS `Math.round` on a nonnegative rational: round half up. -/
def jsRound (q : ℚ) : ℤ := ⌊q + 1 / 2⌋

/-- `times.reduce((a, b) => a + b, 0)`. -/
def listSum (ts : List Nat) : Nat := ts.foldl (· + ·) 0

/-- Arithmetic mean over the rationals. -/
def meanQ (ts : List Nat) : ℚ := (listSum ts : ℚ) / ts.length

/-- Population variance
`times.reduce((a, b) => a + Math.pow(b - mean, 2), 0) / times.length`. -/
def popVar (ts : List Nat) : ℚ :=
  (ts.foldl (fun a b => a + ((b : ℚ) - meanQ ts) ^ 2) 0) / ts.length

/-- `Math.round(Math.sqrt v)` for a nonnegative rational `v`, computed
exactly: the unique `k` with `(2k-1)^2 ≤ 4v < (2k+1)^2` (see
`roundSqrtQ_sandwich`). -/
def roundSqrtQ (v : ℚ) : Nat := (Nat.sqrt (Int.toNat ⌊4 * v⌋) + 1) / 2

/-- `Math.min(...times)` over a nonempty list. -/
def minList : List Nat → Nat
  | [] => 0
  | t :: ts => ts.foldl Nat.min t

/-- `Math.max(...times)` over a nonempty list. -/
def maxList : List Nat → Nat
  | [] => 0
  | t :: ts => ts.foldl Nat.max t

/-- The four summary statistics computed by `BenchmarkRunner.benchmarkVersion`
over the trial times (avg, min, max, population std-dev, each rounded to
integer milliseconds exactly as `Math.round` does). -/
structure SummaryStats where
  avgTime : ℤ
  minTime : Nat
  maxTime : Nat
  stdDev : Nat
deriving DecidableEq, Repr

def summaryStats (times : List Nat) : SummaryStats where
  avgTime := jsRound (meanQ times)
  minTime := minList times
  maxTime := maxList times
  stdDev := roundSqrtQ (popVar times)

/-- `InteractiveBenchmarkResult` (per-version summary of the PTY trials). -/
structure InteractiveSummary where
  runs : List RunResult
  avgTime : ℤ
  minTime : Nat
  maxTime : Nat
  stdDev : Nat
  result : ResState
  reason : List Char
deriving DecidableEq, Repr

/-- Fold of the runner's interactive stats block (lines 192-210 of
`benchmark-runner.ts`); `result`/`reason` come from the first run
(nonempty by the config's `runsPerVersion ≥ 1`; the defaults on `[]` are
unreachable). -/
def interactiveStats (runs : List RunResult) : InteractiveSummary :=
  let times := runs.map (fun r => r.time)
  { runs := runs
    avgTime := (summaryStats times).avgTime
    minTime := (summaryStats times).minTime
    maxTime := (summaryStats times).maxTime
    stdDev := (summaryStats times).stdDev
    result := (runs.head?.map (fun r => r.result)).getD .failed
    reason := (runs.head?.map (fun r => r.reason)).getD [] }

/-- `CombinedBenchmarkResult` restricted to the interactive benchmark
(the spawn-timing benchmark is out of scope per the spec). -/
structure CombinedResult where
  version : List Char
  interactiveBenchmark : Option InteractiveSummary
  error : Option (List Char)
deriving DecidableEq, Repr

/-- Behaviour of one trial as observed through its promise: either the
promise rejects (spawn failure or an exception while processing) with a
message, or it resolves with a `RunResult`. -/
def TrialBehavior := Nat → Except (List Char) RunResult

/-- The `runsPerVersion` loop of `benchmarkVersion`: trials run
sequentially; the first rejection aborts the loop and propagates. -/
def runTrials (behav : TrialBehavior) : Nat → Nat → Except (List Char) (List RunResult)
  | _, 0 => .ok []
  | i, k + 1 =>
    match behav i with
    | .error e => .error e
    | .ok r =>
      match runTrials behav (i + 1) k with
      | .error e => .error e
      | .ok rs => .ok (r :: rs)

/-- The interactive part of `BenchmarkRunner.benchmarkVersion`: run the
trials, fold the summary; a rejection is re-thrown wrapped as
`Interactive benchmark failed: <msg>`. -/
def benchmarkVersionInteractive (n : Nat) (behav : TrialBehavior) :
    Except (List Char) InteractiveSummary :=
  match runTrials behav 0 n with
  | .error e => .error (str "Interactive benchmark failed: " ++ e)
  | .ok runs => .ok (interactiveStats runs)

/-- The per-version loop of `BenchmarkRunner.runSuite`: each version's
benchmark is tried; on an exception the version is recorded in both the
results array (as an error entry) and the errors array, and the loop
continues with the remaining versions. -/
def runSuiteModel (n : Nat) :
    List (List Char × TrialBehavior) →
    List CombinedResult × List (List Char × List Char)
  | [] => ([], [])
  | (v, behav) :: rest =>
    match benchmarkVersionInteractive n behav with
    | .ok summary =>
      ({ version := v, interactiveBenchmark := some summary, error := none } ::
        (runSuiteModel n rest).1, (runSuiteModel n rest).2)
    | .error e =>
      ({ version := v, interactiveBenchmark := none, error := some e } ::
        (runSuiteModel n rest).1, (v, e) :: (runSuiteModel n rest).2)


theorem jsRound_close (q : ℚ) : |(jsRound q : ℚ) - q| ≤ 1 / 2 := by
  have h1 := Int.floor_le (q + 1 / 2)
  have h2 := Int.lt_floor_add_one (q + 1 / 2)
  unfold jsRound
  rw [abs_le]
  constructor <;> push_cast at h1 h2 ⊢ <;> linarith

theorem foldl_min_le_init (ts : List Nat) (a : Nat) : ts.foldl Nat.min a ≤ a := by
  induction ts generalizing a with
  | nil => simp
  | cons b t ih =>
    simp only [List.foldl_cons]
    exact le_trans (ih _) (Nat.min_le_left a b)

theorem foldl_min_le_mem (ts : List Nat) (a x : Nat) (hx : x ∈ ts) :
    ts.foldl Nat.min a ≤ x := by
  induction ts generalizing a with
  | nil => cases hx
  | cons b t ih =>
    simp only [List.foldl_cons]
    rcases List.mem_cons.mp hx with rfl | h
    · exact le_trans (foldl_min_le_init t _) (Nat.min_le_right a x)
    · exact ih _ h

theorem foldl_min_mem (ts : List Nat) (a : Nat) :
    ts.foldl Nat.min a = a ∨ ts.foldl Nat.min a ∈ ts := by
  induction ts generalizing a with
  | nil => exact Or.inl rfl
  | cons b t ih =>
    simp only [List.foldl_cons]
    rcases ih (Nat.min a b) with h | h
    · rw [h]
      rcases Nat.le_total a b with hab | hab
      · exact Or.inl (by simp only [Nat.min_def]; split <;> omega)
      · refine Or.inr ?_
        have hmin : Nat.min a b = b := by simp only [Nat.min_def]; split <;> omega
        rw [hmin]
        exact List.mem_cons_self b t
    · exact Or.inr (List.mem_cons_of_mem b h)

theorem foldl_max_ge_init (ts : List Nat) (a : Nat) : a ≤ ts.foldl Nat.max a := by
  induction ts generalizing a with
  | nil => simp
  | cons b t ih =>
    simp only [List.foldl_cons]
    exact le_trans (Nat.le_max_left a b) (ih _)

theorem foldl_max_ge_mem (ts : List Nat) (a x : Nat) (hx : x ∈ ts) :
    x ≤ ts.foldl Nat.max a := by
  induction ts generalizing a with
  | nil => cases hx
  | cons b t ih =>
    simp only [List.foldl_cons]
    rcases List.mem_cons.mp hx with rfl | h
    · exact le_trans (Nat.le_max_right a x) (foldl_max_ge_init t _)
    · exact ih _ h

theorem foldl_max_mem (ts : List Nat) (a : Nat) :
    ts.foldl Nat.max a = a ∨ ts.foldl Nat.max a ∈ ts := by
  induction ts generalizing a with
  | nil => exact Or.inl rfl
  | cons b t ih =>
    simp only [List.foldl_cons]
    rcases ih (Nat.max a b) with h | h
    · rw [h]
      rcases Nat.le_total a b with hab | hab
      · refine Or.inr ?_
        have hmax : Nat.max a b = b := by simp only [Nat.max_def]; split <;> omega
        rw [hmax]
        exact List.mem_cons_self b t
      · exact Or.inl (by simp only [Nat.max_def]; split <;> omega)
    · exact Or.inr (List.mem_cons_of_mem b h)

theorem minList_mem {l : List Nat} (h : l ≠ []) : minList l ∈ l := by
  cases l with
  | nil => exact absurd rfl h
  | cons t ts =>
    simp only [minList]
    rcases foldl_min_mem ts t with h1 | h1
    · rw [h1]; exact List.mem_cons_self t ts
    · exact List.mem_cons_of_mem t h1

theorem minList_le {l : List Nat} (x : Nat) (hx : x ∈ l) : minList l ≤ x := by
  cases l with
  | nil => cases hx
  | cons t ts =>
    simp only [minList]
    rcases List.mem_cons.mp hx with rfl | h
    · exact foldl_min_le_init ts x
    · exact foldl_min_le_mem ts t x h

theorem maxList_mem {l : List Nat} (h : l ≠ []) : maxList l ∈ l := by
  cases l with
  | nil => exact absurd rfl h
  | cons t ts =>
    simp only [maxList]
    rcases foldl_max_mem ts t with h1 | h1
    · rw [h1]; exact List.mem_cons_self t ts
    · exact List.mem_cons_of_mem t h1

theorem maxList_ge {l : List Nat} (x : Nat) (hx : x ∈ l) : x ≤ maxList l := by
  cases l with
  | nil => cases hx
  | cons t ts =>
    simp only [maxList]
    rcases List.mem_cons.mp hx with rfl | h
    · exact foldl_max_ge_init ts x
    · exact foldl_max_ge_mem ts t x h

theorem foldl_sq_nonneg (m : ℚ) (ts : List Nat) (a : ℚ) (ha : 0 ≤ a) :
    0 ≤ ts.foldl (fun acc b => acc + ((b : ℚ) - m) ^ 2) a := by
  induction ts generalizing a with
  | nil => exact ha
  | cons b t ih =>
    exact ih _ (by positivity)

theorem popVar_nonneg (ts : List Nat) : 0 ≤ popVar ts := by
  unfold popVar
  apply div_nonneg
  · exact foldl_sq_nonneg _ _ _ le_rfl
  · positivity

theorem roundSqrtQ_spec (v : ℚ) (hv : 0 ≤ v) :
    4 * v < (2 * (roundSqrtQ v : ℚ) + 1) ^ 2 ∧
      (roundSqrtQ v = 0 ∨ (2 * (roundSqrtQ v : ℚ) - 1) ^ 2 ≤ 4 * v) := by
  have hfl : (0 : ℤ) ≤ ⌊4 * v⌋ := Int.floor_nonneg.mpr (by positivity)
  set m := Int.toNat ⌊4 * v⌋ with hm
  set s := Nat.sqrt m with hs
  have hk : roundSqrtQ v = (s + 1) / 2 := rfl
  have hmz : (m : ℤ) = ⌊4 * v⌋ := Int.toNat_of_nonneg hfl
  have hle : (m : ℚ) ≤ 4 * v := by
    have := Int.floor_le (4 * v)
    rw [← hmz] at this
    exact_mod_cast this
  have hlt : 4 * v < (m : ℚ) + 1 := by
    have := Int.lt_floor_add_one (4 * v)
    rw [← hmz] at this
    exact_mod_cast this
  have hs2 : s * s ≤ m := Nat.sqrt_le m
  have hs3 : m < (s + 1) * (s + 1) := Nat.lt_succ_sqrt m
  set k := (s + 1) / 2 with hkdef
  have hbounds : s ≤ 2 * k ∧ 2 * k ≤ s + 1 := by omega
  constructor
  · -- 4v < (2k+1)^2
    have hnat : m < (2 * k + 1) * (2 * k + 1) :=
      lt_of_lt_of_le hs3 (Nat.mul_le_mul (by omega) (by omega))
    have : (m : ℚ) + 1 ≤ ((2 * k + 1 : ℕ) : ℚ) * ((2 * k + 1 : ℕ) : ℚ) := by
      exact_mod_cast Nat.succ_le_of_lt hnat
    rw [hk]
    push_cast at this ⊢
    nlinarith
  · rcases Nat.eq_zero_or_pos k with hk0 | hk1
    · exact Or.inl (hk ▸ hk0)
    · right
      have h2k : 2 * k - 1 ≤ s := by omega
      have hnat : (2 * k - 1) * (2 * k - 1) ≤ m :=
        le_trans (Nat.mul_le_mul h2k h2k) hs2
    -- cast: (2k-1 : ℕ) = 2k-1 in ℚ since k ≥ 1
      have hcast : ((2 * k - 1 : ℕ) : ℚ) = 2 * (k : ℚ) - 1 := by
        have : (1 : ℕ) ≤ 2 * k := by omega
        push_cast [Nat.cast_sub this]
        ring
      have : ((2 * k - 1 : ℕ) : ℚ) * ((2 * k - 1 : ℕ) : ℚ) ≤ (m : ℚ) := by
        exact_mod_cast hnat
      rw [hk]
      rw [hcast] at this
      nlinarith

theorem roundSqrtQ_eq_of (v : ℚ) (hv : 0 ≤ v) (k : ℕ)
    (hA : 4 * v < (2 * (k : ℚ) + 1) ^ 2)
    (hB : k = 0 ∨ (2 * (k : ℚ) - 1) ^ 2 ≤ 4 * v) :
    roundSqrtQ v = k := by
  have hspec := roundSqrtQ_spec v hv
  by_contra hne
  rcases Nat.lt_or_ge (roundSqrtQ v) k with hlt | hge
  · rcases hB with rfl | hB
    · omega
    · have hj1 : ((roundSqrtQ v : ℚ)) + 1 ≤ (k : ℚ) := by exact_mod_cast hlt
      have hsq : (2 * (roundSqrtQ v : ℚ) + 1) ^ 2 ≤ (2 * (k : ℚ) - 1) ^ 2 := by
        apply pow_le_pow_left₀ (by positivity)
        linarith
      linarith [hspec.1]
  · have hgt : k < roundSqrtQ v := by omega
    rcases hspec.2 with h0 | hB2
    · omega
    · have hj1 : (k : ℚ) + 1 ≤ ((roundSqrtQ v : ℚ)) := by exact_mod_cast hgt
      have hsq : (2 * (k : ℚ) + 1) ^ 2 ≤ (2 * (roundSqrtQ v : ℚ) - 1) ^ 2 := by
        apply pow_le_pow_left₀ (by positivity)
        linarith
      linarith [hspec.1]

/-- C8: for every non-empty list of trial elapsed times, the version summary
reports the arithmetic mean, the minimum, the maximum, and the population
standard deviation of those times (avg and std-dev as the nearest integer,
`Math.round`); in particular for `[100, 200, 300]` it reports `avgMs = 200`,
`minMs = 100`, `maxMs = 300` and `stdDevMs = 82`, the rounding of
`σ = √(20000/3) ≈ 81.6`. -/
theorem c8_summary_statistics :
    (∀ times : List Nat, times ≠ [] →
      (summaryStats times).avgTime = jsRound (meanQ times) ∧
      |((summaryStats times).avgTime : ℚ) - meanQ times| ≤ 1 / 2 ∧
      ((summaryStats times).minTime ∈ times ∧
        ∀ x ∈ times, (summaryStats times).minTime ≤ x) ∧
      ((summaryStats times).maxTime ∈ times ∧
        ∀ x ∈ times, x ≤ (summaryStats times).maxTime) ∧
      (4 * popVar times < (2 * ((summaryStats times).stdDev : ℚ) + 1) ^ 2 ∧
        ((summaryStats times).stdDev = 0 ∨
          (2 * ((summaryStats times).stdDev : ℚ) - 1) ^ 2 ≤ 4 * popVar times))) ∧
    summaryStats [100, 200, 300] = ⟨200, 100, 300, 82⟩ := by
  constructor
  · intro times hne
    refine ⟨rfl, jsRound_close _, ⟨minList_mem hne, fun x hx => minList_le x hx⟩,
      ⟨maxList_mem hne, fun x hx => maxList_ge x hx⟩, ?_⟩
    exact roundSqrtQ_spec (popVar times) (popVar_nonneg times)
  · have hmean : meanQ [100, 200, 300] = 200 := by norm_num [meanQ, listSum]
    have hvar : popVar [100, 200, 300] = 20000 / 3 := by
      simp only [popVar, hmean, List.foldl_cons, List.foldl_nil, List.length_cons,
        List.length_nil]
      norm_num
    have havg : jsRound (meanQ [100, 200, 300]) = 200 := by
      rw [hmean]
      unfold jsRound
      rw [Int.floor_eq_iff]
      norm_num
    have hsd : roundSqrtQ (popVar [100, 200, 300]) = 82 := by
      rw [hvar]
      exact roundSqrtQ_eq_of _ (by norm_num) 82 (by norm_num) (Or.inr (by norm_num))
    have hrec : summaryStats [100, 200, 300] =
        { avgTime := jsRound (meanQ [100, 200, 300])
          minTime := minList [100, 200, 300]
          maxTime := maxList [100, 200, 300]
          stdDev := roundSqrtQ (popVar [100, 200, 300]) } := rfl
    have hmin : minList [100, 200, 300] = 100 := by decide
    have hmax : maxList [100, 200, 300] = 300 := by decide
    rw [hrec, havg, hmin, hmax, hsd]

theorem c8_summary_statistics_witness :
    (summaryStats [100, 200, 300]).avgTime = jsRound (meanQ [100, 200, 300]) ∧
    (summaryStats [100, 200, 300]).minTime ∈ [100, 200, 300] := by
  have h := c8_summary_statistics.1 [100, 200, 300] (by decide)
  exact ⟨h.1, h.2.2.1.1⟩

/-- C7 counterexample: a trial whose spawn fails does NOT yield any
`RunResult` with outcome `failed`; instead the per-version benchmark
rethrows a wrapped error, and the suite records a version-level error entry
with no interactive runs at all. -/
theorem c7_spawn_failure_cex :
    benchmarkVersionInteractive 2 (fun _ => .error (str "spawn ENOENT")) =
      .error (str "Interactive benchmark failed: spawn ENOENT") ∧
    (runSuiteModel 2 [(str "1.0.0", fun _ => .error (str "spawn ENOENT"))]).1 =
      [{ version := str "1.0.0", interactiveBenchmark := none,
         error := some (str "Interactive benchmark failed: spawn ENOENT") }] ∧
    (runSuiteModel 2 [(str "1.0.0", fun _ => .error (str "spawn ENOENT"))]).2 =
      [(str "1.0.0", str "Interactive benchmark failed: spawn ENOENT")] := by
  refine ⟨rfl, rfl, rfl⟩

/-- C7 amended: a failing trial rejects with its message; the per-version
runner wraps and rethrows it (abandoning the remaining trials of that
version), and the suite runner records the version with the wrapped message
in both the results and errors arrays and proceeds with the remaining
versions unchanged. -/
theorem c7_trial_failure_containment :
    (∀ (n : Nat) (behav : TrialBehavior) (msg : List Char),
      behav 0 = .error msg →
      benchmarkVersionInteractive (n + 1) behav =
        .error (str "Interactive benchmark failed: " ++ msg)) ∧
    (∀ (n : Nat) (pre post : List (List Char × TrialBehavior))
        (v : List Char) (behav : TrialBehavior) (e : List Char),
      benchmarkVersionInteractive n behav = .error e →
      runSuiteModel n (pre ++ (v, behav) :: post) =
        ((runSuiteModel n pre).1 ++
          ({ version := v, interactiveBenchmark := none, error := some e } ::
            (runSuiteModel n post).1),
         (runSuiteModel n pre).2 ++ ((v, e) :: (runSuiteModel n post).2))) := by
  constructor
  · intro n behav msg hmsg
    simp only [benchmarkVersionInteractive, runTrials, hmsg]
  · intro n pre post v behav e he
    induction pre with
    | nil =>
      simp only [List.nil_append, runSuiteModel, he]
    | cons p pre ih =>
      obtain ⟨pv, pbehav⟩ := p
      simp only [List.cons_append, runSuiteModel, ih]
      rcases hb : benchmarkVersionInteractive n pbehav with pe | ps <;> simp [hb, ih]

theorem c7_trial_failure_containment_witness :
    benchmarkVersionInteractive 1 (fun _ => .error (str "boom")) =
      .error (str "Interactive benchmark failed: boom") ∧
    runSuiteModel 1 [(str "1.0.0", fun _ => .error (str "boom"))] =
      ([{ version := str "1.0.0", interactiveBenchmark := none,
          error := some (str "Interactive benchmark failed: boom") }],
       [(str "1.0.0", str "Interactive benchmark failed: boom")]) := by
  have ha := c7_trial_failure_containment.1 0 (fun _ => .error (str "boom"))
    (str "boom") rfl
  refine ⟨ha, ?_⟩
  have hb := c7_trial_failure_containment.2 1 [] []
    (str "1.0.0") (fun _ => .error (str "boom"))
    (str "Interactive benchmark failed: boom") ha
  simpa [runSuiteModel] using hb


theorem trustStep_resolved (t : Nat) (st : TrialState) :
    (trustStep t st).resolved = st.resolved := by
  unfold trustStep; split <;> rfl

theorem sessionStep_resolved (st : TrialState) :
    (sessionStep st).resolved = st.resolved := by
  unfold sessionStep; split <;> rfl

theorem bpStep_resolved (d : List Char) (st : TrialState) :
    (bpStep d st).resolved = st.resolved := by
  unfold bpStep; split <;> rfl

theorem focusStep_resolved (d : List Char) (st : TrialState) :
    (focusStep d st).resolved = st.resolved := by
  unfold focusStep; split <;> rfl

theorem promptStep_resolved (d : List Char) (st : TrialState) :
    (promptStep d st).resolved = st.resolved := by
  unfold promptStep; split <;> rfl

theorem signalsStep_resolved (d : List Char) (st : TrialState) :
    (signalsStep d st).resolved = st.resolved := by
  unfold signalsStep
  rw [promptStep_resolved, focusStep_resolved, bpStep_resolved]

theorem readyStep_resolved (t : Nat) (st : TrialState) :
    (readyStep t st).resolved = st.resolved := by
  unfold readyStep; split <;> rfl

theorem handleData_resolved_of_some {st : TrialState} {r : RunResult}
    (t : Nat) (d : List Char) (h : st.resolved = some r) :
    (handleData t d st).resolved = some r := by
  unfold handleData gateStep
  have h1 : (sessionStep (trustStep t (appendOut d st))).resolved = some r := by
    rw [sessionStep_resolved, trustStep_resolved]; exact h
  split
  · unfold errorResolveStep
    simp only [h1, resolveOnce]
  · rw [readyStep_resolved, signalsStep_resolved]
    exact h1

theorem handleExit_resolved_of_some {st : TrialState} {r : RunResult}
    (t : Nat) (c : Int) (h : st.resolved = some r) :
    (handleExit t c st).resolved = some r := by
  unfold handleExit exitResolve
  split
  · exact h
  · split <;> simp only [resolveOnce, h]

theorem fireTimer_resolved_of_some {st : TrialState} {r : RunResult}
    (timeoutMs : Nat) (k : TimerKind) (h : st.resolved = some r) :
    (fireTimer timeoutMs k st).resolved = some r := by
  cases k <;> simp only [fireTimer, fireTmo, fireTrust, fireStab, resolveOnce, h]

theorem fireDue_resolved_of_some {st : TrialState} {r : RunResult}
    (timeoutMs t fuel : Nat) (h : st.resolved = some r) :
    (fireDue timeoutMs t fuel st).resolved = some r := by
  induction fuel generalizing st with
  | zero => exact h
  | succ n ih =>
    unfold fireDue
    rcases hn : nextTimer timeoutMs st with _ | ⟨d, k⟩
    · exact h
    · dsimp only
      split
      · exact ih (fireTimer_resolved_of_some timeoutMs k h)
      · exact h

theorem drainTimers_resolved_of_some {st : TrialState} {r : RunResult}
    (timeoutMs fuel : Nat) (h : st.resolved = some r) :
    (drainTimers timeoutMs fuel st).resolved = some r := by
  induction fuel generalizing st with
  | zero => exact h
  | succ n ih =>
    unfold drainTimers
    rcases hn : nextTimer timeoutMs st with _ | ⟨d, k⟩
    · exact h
    · exact ih (fireTimer_resolved_of_some timeoutMs k h)

theorem processEvents_resolved_of_some {st : TrialState} {r : RunResult}
    (timeoutMs : Nat) (events : List Event) (h : st.resolved = some r) :
    (processEvents timeoutMs st events).resolved = some r := by
  induction events generalizing st with
  | nil => exact h
  | cons e rest ih =>
    unfold processEvents
    apply ih
    have hd := fireDue_resolved_of_some timeoutMs e.time 3 h
    cases e with
    | data t d => exact handleData_resolved_of_some t d hd
    | exited t c => exact handleExit_resolved_of_some t c hd

/-- C3: once a trial's promise is resolved with a value `r`, feeding the
trial any further output chunks, exit events, or letting its remaining
timers fire leaves the promise value (hence `outcome`, `elapsedMs`,
`exitCode`) unchanged: exactly one terminal resolution per trial. -/
theorem c3_resolution_is_final (timeoutMs : Nat) (st : TrialState)
    (r : RunResult) (extra : List Event) (h : st.resolved = some r) :
    (drainTimers timeoutMs 3 (processEvents timeoutMs st extra)).resolved = some r :=
  drainTimers_resolved_of_some timeoutMs 3
    (processEvents_resolved_of_some timeoutMs extra h)

theorem c3_resolution_is_final_witness :
    (drainTimers 30000 3 (processEvents 30000
        (runTrialState 30000 [.data 5 (str "Claude needs update")])
        [.data 600 (str "\x1b[?2004h\x1b[?1004h> "), .exited 700 0])).resolved =
      some { time := 5, result := .error_detected,
             reason := str "version_requirement_not_met",
             signals := none, exitCode := none, sessionId := none,
             minVersionRequired := some (str "1.0.24"),
             errorMessage := some (str "Claude needs update"),
             rawOutput := some (str "Claude needs update") } := by
  apply c3_resolution_is_final
  decide

/-- C1: on the code, a trial whose three ready signals complete at
t = 1000 ms and whose child stays alive resolves `ready` with a recorded
time of 1500 ms — the elapsed time is taken inside the 500 ms stabilization
callback (`Date.now() - startTime` in the `setTimeout` body) and therefore
INCLUDES the stabilization delay, contrary to the claim that it is the time
from spawn to signal completion (1000 ms). -/
theorem c1_ready_time_includes_stabilization :
    (runTrialState 30000 [.data 1000 (str "\x1b[?2004h\x1b[?1004h> ")]).resolved =
      some { time := 1500, result := .ready,
             reason := str "all terminal signals received and process stable",
             signals := some ⟨true, true, true⟩, exitCode := none,
             sessionId := none, minVersionRequired := none,
             errorMessage := none, rawOutput := none } := by
  decide

/-- C2: on the code, a child that completes all three signals at t = 1000 ms
and then exits on its own at t = 1100 ms (inside the 500 ms stabilization
window, exit code 1) still resolves `ready` at t = 1500 with NO exit code
recorded: the exit handler returns early because `readyDetected` is set,
and the stabilization timer later resolves `ready` — contrary to the claim
that such a trial resolves `UiThenExit` with the exit code recorded. -/
theorem c2_exit_during_stabilization_resolves_ready :
    (runTrialState 30000
        [.data 1000 (str "\x1b[?2004h\x1b[?1004h> "), .exited 1100 1]).resolved =
      some { time := 1500, result := .ready,
             reason := str "all terminal signals received and process stable",
             signals := some ⟨true, true, true⟩, exitCode := none,
             sessionId := none, minVersionRequired := none,
             errorMessage := none, rawOutput := none } := by
  decide


theorem appendOut_output (d : List Char) (st : TrialState) :
    (appendOut d st).output = st.output ++ d := rfl

theorem trustStep_output (t : Nat) (st : TrialState) :
    (trustStep t st).output = st.output := by
  unfold trustStep; split <;> rfl

theorem sessionStep_output (st : TrialState) :
    (sessionStep st).output = st.output := by
  unfold sessionStep; split <;> rfl

theorem trustStep_errorDetected (t : Nat) (st : TrialState) :
    (trustStep t st).errorDetected = st.errorDetected := by
  unfold trustStep; split <;> rfl

theorem sessionStep_errorDetected (st : TrialState) :
    (sessionStep st).errorDetected = st.errorDetected := by
  unfold sessionStep; split <;> rfl

theorem trustStep_readyDetected (t : Nat) (st : TrialState) :
    (trustStep t st).readyDetected = st.readyDetected := by
  unfold trustStep; split <;> rfl

theorem sessionStep_readyDetected (st : TrialState) :
    (sessionStep st).readyDetected = st.readyDetected := by
  unfold sessionStep; split <;> rfl

theorem trustStep_errorOutput (t : Nat) (st : TrialState) :
    (trustStep t st).errorOutput = st.errorOutput := by
  unfold trustStep; split <;> rfl

theorem sessionStep_errorOutput (st : TrialState) :
    (sessionStep st).errorOutput = st.errorOutput := by
  unfold sessionStep; split <;> rfl

/-- C6: within one chunk, the version-gate error check runs before the
signal-completion check: a chunk that both makes the error condition true
and would complete the third ready signal resolves `error_detected`, never
`ready`. -/
theorem c6_error_priority_over_ready (st : TrialState) (t : Nat) (d : List Char)
    (hres : st.resolved = none) (herr : st.errorDetected = false)
    (hready : st.readyDetected = false)
    (hphrase : errPhrase (st.output ++ d) = true)
    (hbp : (st.bracketedPaste || hasSub d bpSeq) = true)
    (hfocus : (st.focusEvents || hasSub d focusSeq) = true)
    (hprompt : (st.prompt || promptTest (stripAnsi d)) = true) :
    Option.map (fun r => r.result) (handleData t d st).resolved =
      some .error_detected ∧
    (handleData t d st).readyDetected = false := by
  unfold handleData gateStep
  have ho : (sessionStep (trustStep t (appendOut d st))).output = st.output ++ d := by
    rw [sessionStep_output, trustStep_output, appendOut_output]
  have he : (sessionStep (trustStep t (appendOut d st))).errorDetected = false := by
    rw [sessionStep_errorDetected, trustStep_errorDetected]; exact herr
  have hr : (sessionStep (trustStep t (appendOut d st))).resolved = none := by
    rw [sessionStep_resolved, trustStep_resolved]; exact hres
  have hrd : (sessionStep (trustStep t (appendOut d st))).readyDetected = false := by
    rw [sessionStep_readyDetected, trustStep_readyDetected]; exact hready
  rw [if_pos (by rw [ho, he, hphrase]; rfl)]
  unfold errorResolveStep
  simp only [hr, resolveOnce, Option.map_some']
  exact ⟨rfl, hrd⟩

theorem c6_error_priority_over_ready_witness :
    Option.map (fun r => r.result)
        (handleData 7 (str "requires 1.0.24 \x1b[?2004h\x1b[?1004h> ")
          initState).resolved = some .error_detected ∧
    (handleData 7 (str "requires 1.0.24 \x1b[?2004h\x1b[?1004h> ")
        initState).readyDetected = false := by
  exact c6_error_priority_over_ready initState 7
    (str "requires 1.0.24 \x1b[?2004h\x1b[?1004h> ")
    rfl rfl rfl (by decide) (by decide) (by decide) (by decide)


theorem bpStep_errorDetected (d : List Char) (st : TrialState) :
    (bpStep d st).errorDetected = st.errorDetected := by
  unfold bpStep; split <;> rfl

theorem focusStep_errorDetected (d : List Char) (st : TrialState) :
    (focusStep d st).errorDetected = st.errorDetected := by
  unfold focusStep; split <;> rfl

theorem promptStep_errorDetected (d : List Char) (st : TrialState) :
    (promptStep d st).errorDetected = st.errorDetected := by
  unfold promptStep; split <;> rfl

theorem readyStep_errorDetected (t : Nat) (st : TrialState) :
    (readyStep t st).errorDetected = st.errorDetected := by
  unfold readyStep; split <;> rfl

theorem bpStep_errorOutput (d : List Char) (st : TrialState) :
    (bpStep d st).errorOutput = st.errorOutput := by
  unfold bpStep; split <;> rfl

theorem focusStep_errorOutput (d : List Char) (st : TrialState) :
    (focusStep d st).errorOutput = st.errorOutput := by
  unfold focusStep; split <;> rfl

theorem promptStep_errorOutput (d : List Char) (st : TrialState) :
    (promptStep d st).errorOutput = st.errorOutput := by
  unfold promptStep; split <;> rfl

theorem readyStep_errorOutput (t : Nat) (st : TrialState) :
    (readyStep t st).errorOutput = st.errorOutput := by
  unfold readyStep; split <;> rfl

/-- Invariant tying an `error_detected` resolution to the ghost
`errorOutput` snapshot: the diagnostic fields of the result are computed
from the ANSI-stripped accumulated output frozen at detection time. -/
def ErrInv (st : TrialState) : Prop :=
  ∀ r : RunResult, st.resolved = some r → r.result = .error_detected →
    st.errorDetected = true ∧
    ∃ o : List Char, st.errorOutput = some o ∧
      r.minVersionRequired = some (extractMinVersion (stripAnsi o)) ∧
      r.errorMessage = some (buildErrorMessage (stripAnsi o)) ∧
      r.rawOutput = some ((stripAnsi o).take 2000)

theorem errInv_congr {s1 s2 : TrialState} (h : ErrInv s1)
    (hres : s2.resolved = s1.resolved)
    (hed : s2.errorDetected = s1.errorDetected)
    (heo : s2.errorOutput = s1.errorOutput) : ErrInv s2 := by
  intro r hr hresr
  rw [hres] at hr
  rw [hed, heo]
  exact h r hr hresr

theorem errInv_init : ErrInv initState := by
  intro r hr
  simp [initState] at hr

theorem errInv_errorResolveStep {st : TrialState} (t : Nat) (h : ErrInv st)
    (hed : st.errorDetected = false) : ErrInv (errorResolveStep t st) := by
  intro r hr hres
  have hproj : (errorResolveStep t st).resolved =
      resolveOnce st.resolved (mkErrorResult t st) := rfl
  rw [hproj] at hr
  rcases hsome : st.resolved with _ | r0 <;> rw [hsome] at hr <;>
    simp only [resolveOnce, Option.some.injEq] at hr <;> subst hr
  · exact ⟨rfl, st.output, rfl, rfl, rfl, rfl⟩
  · have h2 := h r0 hsome hres
    rw [h2.1] at hed
    cases hed

theorem errInv_handleData {st : TrialState} (t : Nat) (d : List Char)
    (h : ErrInv st) : ErrInv (handleData t d st) := by
  unfold handleData gateStep
  have h1 : ErrInv (sessionStep (trustStep t (appendOut d st))) := by
    refine errInv_congr h ?_ ?_ ?_
    · rw [sessionStep_resolved, trustStep_resolved]; rfl
    · rw [sessionStep_errorDetected, trustStep_errorDetected]; rfl
    · rw [sessionStep_errorOutput, trustStep_errorOutput]; rfl
  split
  · rename_i hcond
    simp only [Bool.and_eq_true, Bool.not_eq_true'] at hcond
    exact errInv_errorResolveStep t h1 hcond.2
  · refine errInv_congr h1 ?_ ?_ ?_
    · rw [readyStep_resolved, signalsStep_resolved]
    · unfold signalsStep
      rw [readyStep_errorDetected, promptStep_errorDetected,
        focusStep_errorDetected, bpStep_errorDetected]
    · unfold signalsStep
      rw [readyStep_errorOutput, promptStep_errorOutput,
        focusStep_errorOutput, bpStep_errorOutput]

theorem errInv_handleExit {st : TrialState} (t : Nat) (c : Int)
    (h : ErrInv st) : ErrInv (handleExit t c st) := by
  unfold handleExit exitResolve
  split
  · exact h
  · split <;>
    · intro r hr hres
      have hproj :
          (resolveOnce st.resolved (mkExitResult t c _ _ _)) = some r := hr
      rcases hsome : st.resolved with _ | r0 <;> rw [hsome] at hproj <;>
        simp only [resolveOnce, Option.some.injEq] at hproj <;> subst hproj
      · cases hres
      · have h2 := h r0 hsome hres
        exact ⟨h2.1, h2.2⟩

theorem errInv_fireTimer {st : TrialState} (timeoutMs : Nat) (k : TimerKind)
    (h : ErrInv st) : ErrInv (fireTimer timeoutMs k st) := by
  cases k
  · intro r hr hres
    have hproj : (fireTmo timeoutMs st).resolved =
        resolveOnce st.resolved (mkTimeoutResult timeoutMs st) := rfl
    rw [show fireTimer timeoutMs .tmo st = fireTmo timeoutMs st from rfl] at hr ⊢
    rw [hproj] at hr
    rcases hsome : st.resolved with _ | r0 <;> rw [hsome] at hr <;>
      simp only [resolveOnce, Option.some.injEq] at hr <;> subst hr
    · cases hres
    · have h2 := h r0 hsome hres
      exact ⟨h2.1, h2.2⟩
  · intro r hr hres
    have h2 := h r hr hres
    exact ⟨h2.1, h2.2⟩
  · intro r hr hres
    have hproj : (fireStab st).resolved =
        resolveOnce st.resolved (mkReadyResult st) := rfl
    rw [show fireTimer timeoutMs .stab st = fireStab st from rfl] at hr ⊢
    rw [hproj] at hr
    rcases hsome : st.resolved with _ | r0 <;> rw [hsome] at hr <;>
      simp only [resolveOnce, Option.some.injEq] at hr <;> subst hr
    · cases hres
    · have h2 := h r0 hsome hres
      exact ⟨h2.1, h2.2⟩

theorem errInv_fireDue {st : TrialState} (timeoutMs t fuel : Nat)
    (h : ErrInv st) : ErrInv (fireDue timeoutMs t fuel st) := by
  induction fuel generalizing st with
  | zero => exact h
  | succ n ih =>
    unfold fireDue
    rcases hn : nextTimer timeoutMs st with _ | ⟨d, k⟩
    · exact h
    · dsimp only
      split
      · exact ih (errInv_fireTimer timeoutMs k h)
      · exact h

theorem errInv_drainTimers {st : TrialState} (timeoutMs fuel : Nat)
    (h : ErrInv st) : ErrInv (drainTimers timeoutMs fuel st) := by
  induction fuel generalizing st with
  | zero => exact h
  | succ n ih =>
    unfold drainTimers
    rcases hn : nextTimer timeoutMs st with _ | ⟨d, k⟩
    · exact h
    · exact ih (errInv_fireTimer timeoutMs k h)

theorem errInv_processEvents {st : TrialState} (timeoutMs : Nat)
    (events : List Event) (h : ErrInv st) :
    ErrInv (processEvents timeoutMs st events) := by
  induction events generalizing st with
  | nil => exact h
  | cons e rest ih =>
    unfold processEvents
    apply ih
    have hd := errInv_fireDue timeoutMs e.time 3 h
    cases e with
    | data t d => exact errInv_handleData t d hd
    | exited t c => exact errInv_handleExit t c hd

theorem errInv_runTrial (timeoutMs : Nat) (events : List Event) :
    ErrInv (runTrialState timeoutMs events) :=
  errInv_drainTimers timeoutMs 3
    (errInv_processEvents timeoutMs events errInv_init)


/-- C5: whenever a trial resolves `error_detected`, its
`minVersionRequired` is the version token extracted from the ANSI-stripped
accumulated output (frozen at detection) by trying the five patterns in
source order with first-match-wins, and is the configured constant
`"1.0.24"` when none of the five patterns matches. -/
theorem c5_min_version_extraction (timeoutMs : Nat) (events : List Event)
    (r : RunResult) (h1 : (runTrialState timeoutMs events).resolved = some r)
    (h2 : r.result = .error_detected) :
    (runTrialState timeoutMs events).errorOutput.isSome = true ∧
    r.minVersionRequired = some
      ((matchVerOrHigher
          (stripAnsi ((runTrialState timeoutMs events).errorOutput.getD [])) <|>
        matchVersionParen
          (stripAnsi ((runTrialState timeoutMs events).errorOutput.getD [])) <|>
        matchRequiresVer
          (stripAnsi ((runTrialState timeoutMs events).errorOutput.getD [])) <|>
        matchMinimumVersion
          (stripAnsi ((runTrialState timeoutMs events).errorOutput.getD [])) <|>
        matchVVerPlus
          (stripAnsi ((runTrialState timeoutMs events).errorOutput.getD []))).getD
        (str "1.0.24")) := by
  obtain ⟨hed, o, ho, hmin, hmsg, hraw⟩ := errInv_runTrial timeoutMs events r h1 h2
  rw [ho]
  exact ⟨rfl, by rw [hmin]; rfl⟩

theorem c5_min_version_extraction_witness :
    (runTrialState 30000
        [.data 5 (str "Claude needs update to v1.0.24 or higher")]).errorOutput.isSome =
      true ∧
    RunResult.minVersionRequired
      { time := 5, result := .error_detected,
        reason := str "version_requirement_not_met",
        signals := none, exitCode := none, sessionId := none,
        minVersionRequired := some (str "1.0.24"),
        errorMessage := some (str "Claude needs update to v1.0.24 or higher"),
        rawOutput := some (str "Claude needs update to v1.0.24 or higher") } = some
      ((matchVerOrHigher
          (stripAnsi ((runTrialState 30000
            [.data 5 (str "Claude needs update to v1.0.24 or higher")]).errorOutput.getD [])) <|>
        matchVersionParen
          (stripAnsi ((runTrialState 30000
            [.data 5 (str "Claude needs update to v1.0.24 or higher")]).errorOutput.getD [])) <|>
        matchRequiresVer
          (stripAnsi ((runTrialState 30000
            [.data 5 (str "Claude needs update to v1.0.24 or higher")]).errorOutput.getD [])) <|>
        matchMinimumVersion
          (stripAnsi ((runTrialState 30000
            [.data 5 (str "Claude needs update to v1.0.24 or higher")]).errorOutput.getD [])) <|>
        matchVVerPlus
          (stripAnsi ((runTrialState 30000
            [.data 5 (str "Claude needs update to v1.0.24 or higher")]).errorOutput.getD []))).getD
        (str "1.0.24")) := by
  exact c5_min_version_extraction 30000
    [.data 5 (str "Claude needs update to v1.0.24 or higher")]
    { time := 5, result := .error_detected,
      reason := str "version_requirement_not_met",
      signals := none, exitCode := none, sessionId := none,
      minVersionRequired := some (str "1.0.24"),
      errorMessage := some (str "Claude needs update to v1.0.24 or higher"),
      rawOutput := some (str "Claude needs update to v1.0.24 or higher") }
    (by decide) rfl

/-- C10 counterexample: with raw output `"\x1b[needs update"` the phrase
check (which runs on the RAW accumulated output) fires, but ANSI stripping
eats the leading `n` (`ESC[n` is a complete CSI sequence), so NO line of
the cleaned output contains a trigger phrase; `findIndex` returns `-1` and
`errorMessage` is built from the first five lines of the cleaned output,
not from lines surrounding a phrase-bearing line. -/
theorem c10_error_payload_cex :
    (runTrialState 30000 [.data 5 (str "\x1b[needs update")]).resolved =
      some { time := 5, result := .error_detected,
             reason := str "version_requirement_not_met",
             signals := none, exitCode := none, sessionId := none,
             minVersionRequired := some (str "1.0.24"),
             errorMessage := some (str "eeds update"),
             rawOutput := some (str "eeds update") } ∧
    ((str "eeds update").splitOn '\n').all (fun l => !errLine l) = true := by
  exact ⟨by decide, by decide⟩

/-- C10 amended: whenever a trial resolves `error_detected`, `rawOutput` is
the first at-most-2000 characters of the ANSI-stripped accumulated output,
and `errorMessage` is the trimmed newline-join of the lines from one
before through five after the first line containing a trigger phrase when
such a line exists, and of the first five lines otherwise. -/
theorem c10_error_payload (timeoutMs : Nat) (events : List Event)
    (r : RunResult) (h1 : (runTrialState timeoutMs events).resolved = some r)
    (h2 : r.result = .error_detected) :
    (runTrialState timeoutMs events).errorOutput.isSome = true ∧
    r.rawOutput = some
      ((stripAnsi ((runTrialState timeoutMs events).errorOutput.getD [])).take 2000) ∧
    r.errorMessage = some (trimBoth (List.intercalate ['\n']
      (match ((stripAnsi ((runTrialState timeoutMs events).errorOutput.getD [])).splitOn
          '\n').findIdx? errLine with
       | some i =>
         sliceList (i - 1) (i + 6)
           ((stripAnsi ((runTrialState timeoutMs events).errorOutput.getD [])).splitOn '\n')
       | none =>
         sliceList 0 5
           ((stripAnsi ((runTrialState timeoutMs events).errorOutput.getD [])).splitOn '\n')))) := by
  obtain ⟨hed, o, ho, hmin, hmsg, hraw⟩ := errInv_runTrial timeoutMs events r h1 h2
  rw [ho]
  refine ⟨rfl, by rw [hraw]; rfl, by rw [hmsg]; rfl⟩

theorem c10_error_payload_witness :
    (runTrialState 30000 [.data 5 (str "\x1b[needs update")]).errorOutput.isSome =
      true ∧
    RunResult.rawOutput
      { time := 5, result := .error_detected,
        reason := str "version_requirement_not_met",
        signals := none, exitCode := none, sessionId := none,
        minVersionRequired := some (str "1.0.24"),
        errorMessage := some (str "eeds update"),
        rawOutput := some (str "eeds update") } = some
      ((stripAnsi ((runTrialState 30000
        [.data 5 (str "\x1b[needs update")]).errorOutput.getD [])).take 2000) := by
  have h := c10_error_payload 30000 [.data 5 (str "\x1b[needs update")]
    { time := 5, result := .error_detected,
      reason := str "version_requirement_not_met",
      signals := none, exitCode := none, sessionId := none,
      minVersionRequired := some (str "1.0.24"),
      errorMessage := some (str "eeds update"),
      rawOutput := some (str "eeds update") }
    (by decide) rfl
  exact ⟨h.1, h.2.1⟩


end CvmBenchmark
open CvmBenchmark
namespace CvmBenchmark

theorem sessionStep_trust (st : TrialState) :
    (sessionStep st).trustPromptHandled = st.trustPromptHandled ∧
    (sessionStep st).trustAt = st.trustAt ∧
    (sessionStep st).trustFired = st.trustFired ∧
    (sessionStep st).output = st.output := by
  unfold sessionStep; split <;> exact ⟨rfl, rfl, rfl, rfl⟩

theorem gateStep_trust (t : Nat) (d : List Char) (st : TrialState) :
    (gateStep t d st).trustPromptHandled = st.trustPromptHandled ∧
    (gateStep t d st).trustAt = st.trustAt ∧
    (gateStep t d st).trustFired = st.trustFired ∧
    (gateStep t d st).output = st.output := by
  unfold gateStep errorResolveStep readyStep signalsStep promptStep focusStep bpStep
  split_ifs <;> exact ⟨rfl, rfl, rfl, rfl⟩

/-- Net effect of one `onData` call on the accumulated output and the
trust-prompt fields. -/
theorem handleData_trust (t : Nat) (d : List Char) (st : TrialState) :
    (handleData t d st).output = st.output ++ d ∧
    (handleData t d st).trustPromptHandled =
      (st.trustPromptHandled || hasSub (st.output ++ d) trustText) ∧
    (handleData t d st).trustAt =
      (if !st.trustPromptHandled && hasSub (st.output ++ d) trustText then
        some (t + 100)
      else st.trustAt) ∧
    (handleData t d st).trustFired = st.trustFired := by
  obtain ⟨g1, g2, g3, g4⟩ :=
    gateStep_trust t d (sessionStep (trustStep t (appendOut d st)))
  obtain ⟨s1, s2, s3, s4⟩ := sessionStep_trust (trustStep t (appendOut d st))
  unfold handleData
  rw [g1, g2, g3, g4, s1, s2, s3, s4]
  unfold trustStep appendOut
  split
  · rename_i hc
    simp only [Bool.and_eq_true, Bool.not_eq_true'] at hc
    refine ⟨rfl, ?_, ?_, rfl⟩ <;> simp [hc.1, hc.2]
  · rename_i hc
    simp only [Bool.and_eq_true, Bool.not_eq_true', not_and_or] at hc
    have hor : st.trustPromptHandled = true ∨
        hasSub (st.output ++ d) trustText = false := by
      rcases hc with hc | hc
      · left
        rcases hb : st.trustPromptHandled with _ | _
        · exact absurd hb hc
        · rfl
      · right
        rcases hb : hasSub (st.output ++ d) trustText with _ | _
        · rfl
        · exact absurd hb hc
    have hcond : (!st.trustPromptHandled &&
        hasSub (st.output ++ d) trustText) = false := by
      rcases hor with hh | hs
      · simp [hh]
      · simp [hs]
    refine ⟨rfl, ?_, ?_, rfl⟩
    · rcases hor with hh | hs
      · simp [hh]
      · simp [hs]
    · simp [hcond]

theorem handleExit_trust (t : Nat) (c : Int) (st : TrialState) :
    (handleExit t c st).trustPromptHandled = st.trustPromptHandled ∧
    (handleExit t c st).trustAt = st.trustAt ∧
    (handleExit t c st).trustFired = st.trustFired ∧
    (handleExit t c st).output = st.output := by
  unfold handleExit exitResolve
  split
  · exact ⟨rfl, rfl, rfl, rfl⟩
  · split <;> exact ⟨rfl, rfl, rfl, rfl⟩

theorem fireTimer_trust (timeoutMs : Nat) (k : TimerKind) (st : TrialState) :
    (fireTimer timeoutMs k st).trustPromptHandled = st.trustPromptHandled ∧
    (fireTimer timeoutMs k st).trustAt = st.trustAt ∧
    (fireTimer timeoutMs k st).output = st.output := by
  cases k <;> exact ⟨rfl, rfl, rfl⟩

theorem fireDue_trust (timeoutMs t fuel : Nat) (st : TrialState) :
    (fireDue timeoutMs t fuel st).trustPromptHandled = st.trustPromptHandled ∧
    (fireDue timeoutMs t fuel st).trustAt = st.trustAt ∧
    (fireDue timeoutMs t fuel st).output = st.output := by
  induction fuel generalizing st with
  | zero => exact ⟨rfl, rfl, rfl⟩
  | succ n ih =>
    unfold fireDue
    rcases hn : nextTimer timeoutMs st with _ | ⟨dl, k⟩
    · exact ⟨rfl, rfl, rfl⟩
    · dsimp only
      split
      · obtain ⟨i1, i2, i3⟩ := ih (fireTimer timeoutMs k st)
        obtain ⟨t1, t2, t3⟩ := fireTimer_trust timeoutMs k st
        exact ⟨by rw [i1, t1], by rw [i2, t2], by rw [i3, t3]⟩
      · exact ⟨rfl, rfl, rfl⟩

theorem drainTimers_trust (timeoutMs fuel : Nat) (st : TrialState) :
    (drainTimers timeoutMs fuel st).trustPromptHandled = st.trustPromptHandled ∧
    (drainTimers timeoutMs fuel st).trustAt = st.trustAt ∧
    (drainTimers timeoutMs fuel st).output = st.output := by
  induction fuel generalizing st with
  | zero => exact ⟨rfl, rfl, rfl⟩
  | succ n ih =>
    unfold drainTimers
    rcases hn : nextTimer timeoutMs st with _ | ⟨dl, k⟩
    · exact ⟨rfl, rfl, rfl⟩
    · obtain ⟨i1, i2, i3⟩ := ih (fireTimer timeoutMs k st)
      obtain ⟨t1, t2, t3⟩ := fireTimer_trust timeoutMs k st
      exact ⟨by rw [i1, t1], by rw [i2, t2], by rw [i3, t3]⟩

/-- Trust-prompt invariant: the one-shot flag is set exactly when the text
occurs in the accumulated output, and the CR write is scheduled exactly
when the flag is set. -/
def TrustInv (st : TrialState) : Prop :=
  st.trustPromptHandled = hasSub st.output trustText ∧
  st.trustAt.isSome = st.trustPromptHandled

theorem trustInv_init : TrustInv initState := by
  constructor
  · decide
  · rfl

theorem trustInv_handleData {st : TrialState} (t : Nat) (d : List Char)
    (h : TrustInv st) : TrustInv (handleData t d st) := by
  obtain ⟨h1, h2, h3, h4⟩ := handleData_trust t d st
  constructor
  · rw [h2, h1, h.1]
    rcases hb : hasSub st.output trustText with _ | _
    · rfl
    · rw [hasSub_append d hb]
      rfl
  · rw [h3, h2]
    split
    · rename_i hb
      simp only [Bool.and_eq_true, Bool.not_eq_true'] at hb
      rw [hb.2, Bool.or_true]
      rfl
    · rename_i hb
      simp only [Bool.and_eq_true, Bool.not_eq_true', not_and_or] at hb
      rcases hb with hb | hb
      · have hh : st.trustPromptHandled = true := by
          rcases hx : st.trustPromptHandled with _ | _
          · exact absurd hx hb
          · rfl
        rw [hh, Bool.true_or, h.2, hh]
      · have hs : hasSub (st.output ++ d) trustText = false := by
          rcases hx : hasSub (st.output ++ d) trustText with _ | _
          · rfl
          · exact absurd hx hb
        rw [hs, Bool.or_false, h.2]

theorem trustInv_handleExit {st : TrialState} (t : Nat) (c : Int)
    (h : TrustInv st) : TrustInv (handleExit t c st) := by
  obtain ⟨h1, h2, h3, h4⟩ := handleExit_trust t c st
  exact ⟨by rw [h1, h4]; exact h.1, by rw [h2, h1]; exact h.2⟩

theorem trustInv_fireTimer {st : TrialState} (timeoutMs : Nat) (k : TimerKind)
    (h : TrustInv st) : TrustInv (fireTimer timeoutMs k st) := by
  obtain ⟨h1, h2, h3⟩ := fireTimer_trust timeoutMs k st
  exact ⟨by rw [h1, h3]; exact h.1, by rw [h2, h1]; exact h.2⟩

theorem trustInv_processEvents {st : TrialState} (timeoutMs : Nat)
    (events : List Event) (h : TrustInv st) :
    TrustInv (processEvents timeoutMs st events) := by
  induction events generalizing st with
  | nil => exact h
  | cons e rest ih =>
    unfold processEvents
    apply ih
    have hdue : TrustInv (fireDue timeoutMs e.time 3 st) := by
      obtain ⟨f1, f2, f3⟩ := fireDue_trust timeoutMs e.time 3 st
      exact ⟨by rw [f1, f3]; exact h.1, by rw [f2, f1]; exact h.2⟩
    cases e with
    | data t d => exact trustInv_handleData t d hdue
    | exited t c => exact trustInv_handleExit t c hdue

theorem trustInv_runTrial (timeoutMs : Nat) (events : List Event) :
    TrustInv (runTrialState timeoutMs events) := by
  obtain ⟨d1, d2, d3⟩ :=
    drainTimers_trust timeoutMs 3 (processEvents timeoutMs initState events)
  have h := trustInv_processEvents timeoutMs events trustInv_init
  unfold runTrialState
  exact ⟨by rw [d1, d3]; exact h.1, by rw [d2, d1]; exact h.2⟩

end CvmBenchmark
open CvmBenchmark
namespace CvmBenchmark

/-- Number of pending timers (at most three). -/
def pendCount (timeoutMs : Nat) (st : TrialState) : Nat :=
  (if (timeoutDl timeoutMs st).isSome then 1 else 0) +
  (if (trustDl st).isSome then 1 else 0) +
  (if (stabDl st).isSome then 1 else 0)

theorem pendCount_le_three (timeoutMs : Nat) (st : TrialState) :
    pendCount timeoutMs st ≤ 3 := by
  unfold pendCount
  split_ifs <;> omega

theorem minCand_some {a b : Option (Nat × TimerKind)} {x : Nat × TimerKind}
    (h : minCand a b = some x) : a = some x ∨ b = some x := by
  rcases a with _ | p <;> rcases b with _ | q
  · simp [minCand] at h
  · exact Or.inr (by simp only [minCand] at h; rw [h])
  · exact Or.inl (by simp only [minCand] at h; rw [h])
  · simp only [minCand] at h
    split at h
    · exact Or.inr h
    · exact Or.inl h

theorem minCand_none_parts {a b : Option (Nat × TimerKind)}
    (h : minCand a b = none) : a = none ∧ b = none := by
  rcases a with _ | p <;> rcases b with _ | q
  · exact ⟨rfl, rfl⟩
  · exact ⟨rfl, by simp only [minCand] at h; rw [h]⟩
  · exact ⟨by simp only [minCand] at h; rw [h], rfl⟩
  · simp only [minCand] at h
    split at h <;> cases h

theorem nextTimer_spec {timeoutMs : Nat} {st : TrialState} {d : Nat}
    {k : TimerKind} (h : nextTimer timeoutMs st = some (d, k)) :
    (k = .tmo ∧ timeoutDl timeoutMs st = some d) ∨
    (k = .trust ∧ trustDl st = some d) ∨
    (k = .stab ∧ stabDl st = some d) := by
  unfold nextTimer at h
  rcases minCand_some h with h' | h'
  · rcases minCand_some h' with h'' | h''
    · left
      rcases ht : timeoutDl timeoutMs st with _ | dt <;> rw [ht] at h''
      · cases h''
      · simp only [Option.map_some', Option.some.injEq, Prod.mk.injEq] at h''
        exact ⟨h''.2.symm, by rw [h''.1]⟩
    · right; left
      rcases ht : trustDl st with _ | dt <;> rw [ht] at h''
      · cases h''
      · simp only [Option.map_some', Option.some.injEq, Prod.mk.injEq] at h''
        exact ⟨h''.2.symm, by rw [h''.1]⟩
  · right; right
    rcases ht : stabDl st with _ | dt <;> rw [ht] at h'
    · cases h'
    · simp only [Option.map_some', Option.some.injEq, Prod.mk.injEq] at h'
      exact ⟨h'.2.symm, by rw [h'.1]⟩

theorem nextTimer_none {timeoutMs : Nat} {st : TrialState}
    (h : nextTimer timeoutMs st = none) :
    timeoutDl timeoutMs st = none ∧ trustDl st = none ∧ stabDl st = none := by
  unfold nextTimer at h
  obtain ⟨h12, h3⟩ := minCand_none_parts h
  obtain ⟨h1, h2⟩ := minCand_none_parts h12
  exact ⟨Option.map_eq_none'.mp h1, Option.map_eq_none'.mp h2,
    Option.map_eq_none'.mp h3⟩

theorem dls_fireTmo (timeoutMs : Nat) (st : TrialState) :
    timeoutDl timeoutMs (fireTmo timeoutMs st) = none ∧
    trustDl (fireTmo timeoutMs st) = trustDl st ∧
    stabDl (fireTmo timeoutMs st) = stabDl st :=
  ⟨rfl, rfl, rfl⟩

theorem dls_fireTrust (timeoutMs : Nat) (st : TrialState) :
    timeoutDl timeoutMs (fireTrust st) = timeoutDl timeoutMs st ∧
    trustDl (fireTrust st) = none ∧
    stabDl (fireTrust st) = stabDl st := by
  refine ⟨rfl, ?_, rfl⟩
  unfold trustDl fireTrust
  rcases st.trustAt with _ | x <;> simp

theorem dls_fireStab (timeoutMs : Nat) (st : TrialState) :
    timeoutDl timeoutMs (fireStab st) = none ∧
    trustDl (fireStab st) = trustDl st ∧
    stabDl (fireStab st) = none := by
  refine ⟨rfl, rfl, ?_⟩
  unfold stabDl fireStab
  rcases st.readyAt with _ | x <;> simp

theorem fireTimer_pend {timeoutMs : Nat} {st : TrialState} {d : Nat}
    {k : TimerKind} (h : nextTimer timeoutMs st = some (d, k)) :
    pendCount timeoutMs (fireTimer timeoutMs k st) < pendCount timeoutMs st := by
  rcases nextTimer_spec h with ⟨hk, hdl⟩ | ⟨hk, hdl⟩ | ⟨hk, hdl⟩ <;> subst hk
  · obtain ⟨a1, a2, a3⟩ := dls_fireTmo timeoutMs st
    unfold pendCount
    rw [show fireTimer timeoutMs .tmo st = fireTmo timeoutMs st from rfl,
      a1, a2, a3, hdl]
    simp only [Option.isSome_none, Option.isSome_some]
    split_ifs <;> first | omega | simp_all
  · obtain ⟨a1, a2, a3⟩ := dls_fireTrust timeoutMs st
    unfold pendCount
    rw [show fireTimer timeoutMs .trust st = fireTrust st from rfl,
      a1, a2, a3, hdl]
    simp only [Option.isSome_none, Option.isSome_some]
    split_ifs <;> first | omega | simp_all
  · obtain ⟨a1, a2, a3⟩ := dls_fireStab timeoutMs st
    unfold pendCount
    rw [show fireTimer timeoutMs .stab st = fireStab st from rfl,
      a1, a2, a3, hdl]
    simp only [Option.isSome_none, Option.isSome_some]
    split_ifs <;> first | omega | simp_all

theorem drain_completes {timeoutMs : Nat} :
    ∀ (fuel : Nat) (st : TrialState), pendCount timeoutMs st ≤ fuel →
      nextTimer timeoutMs (drainTimers timeoutMs fuel st) = none := by
  intro fuel
  induction fuel with
  | zero =>
    intro st hp
    rcases hn : nextTimer timeoutMs st with _ | ⟨d, k⟩
    · simpa [drainTimers] using hn
    · exfalso
      rcases nextTimer_spec hn with ⟨_, hdl⟩ | ⟨_, hdl⟩ | ⟨_, hdl⟩ <;>
        · unfold pendCount at hp
          rw [hdl] at hp
          simp only [Option.isSome_some] at hp
          split_ifs at hp <;> omega
  | succ n ih =>
    intro st hp
    unfold drainTimers
    rcases hn : nextTimer timeoutMs st with _ | ⟨d, k⟩
    · exact hn
    · exact ih _ (by have := fireTimer_pend hn; omega)

end CvmBenchmark
open CvmBenchmark
namespace CvmBenchmark

theorem trustDl_some {st : TrialState} {dt : Nat} (h : trustDl st = some dt) :
    st.trustAt = some dt ∧ st.trustFired = false := by
  unfold trustDl at h
  rcases hat : st.trustAt with _ | x <;> rw [hat] at h
  · cases h
  · rcases hfd : st.trustFired with _ | _ <;> rw [hfd] at h
    · simp only [Bool.false_eq_true, if_false] at h
      cases h
      exact ⟨rfl, rfl⟩
    · simp at h

/-- The carriage return is only ever written for a scheduled trust timer. -/
def FiredInv (st : TrialState) : Prop :=
  st.trustFired = true → st.trustAt.isSome = true

theorem firedInv_init : FiredInv initState := by
  intro h
  cases h

theorem firedInv_handleData {st : TrialState} (t : Nat) (d : List Char)
    (h : FiredInv st) : FiredInv (handleData t d st) := by
  intro hf
  obtain ⟨h1, h2, h3, h4⟩ := handleData_trust t d st
  rw [h4] at hf
  rw [h3]
  split
  · rfl
  · exact h hf

theorem firedInv_handleExit {st : TrialState} (t : Nat) (c : Int)
    (h : FiredInv st) : FiredInv (handleExit t c st) := by
  intro hf
  obtain ⟨h1, h2, h3, h4⟩ := handleExit_trust t c st
  rw [h3] at hf
  rw [h2]
  exact h hf

theorem firedInv_fireTimer {st : TrialState} {timeoutMs d : Nat} {k : TimerKind}
    (hn : nextTimer timeoutMs st = some (d, k)) (h : FiredInv st) :
    FiredInv (fireTimer timeoutMs k st) := by
  rcases nextTimer_spec hn with ⟨hk, hdl⟩ | ⟨hk, hdl⟩ | ⟨hk, hdl⟩ <;> subst hk
  · exact fun hf => h hf
  · intro _
    have := (trustDl_some hdl).1
    show st.trustAt.isSome = true
    rw [this]
    rfl
  · exact fun hf => h hf

theorem firedInv_fireDue {st : TrialState} (timeoutMs t fuel : Nat)
    (h : FiredInv st) : FiredInv (fireDue timeoutMs t fuel st) := by
  induction fuel generalizing st with
  | zero => exact h
  | succ n ih =>
    unfold fireDue
    rcases hn : nextTimer timeoutMs st with _ | ⟨dl, k⟩
    · exact h
    · dsimp only
      split
      · exact ih (firedInv_fireTimer hn h)
      · exact h

theorem firedInv_drainTimers {st : TrialState} (timeoutMs fuel : Nat)
    (h : FiredInv st) : FiredInv (drainTimers timeoutMs fuel st) := by
  induction fuel generalizing st with
  | zero => exact h
  | succ n ih =>
    unfold drainTimers
    rcases hn : nextTimer timeoutMs st with _ | ⟨dl, k⟩
    · exact h
    · exact ih (firedInv_fireTimer hn h)

theorem firedInv_processEvents {st : TrialState} (timeoutMs : Nat)
    (events : List Event) (h : FiredInv st) :
    FiredInv (processEvents timeoutMs st events) := by
  induction events generalizing st with
  | nil => exact h
  | cons e rest ih =>
    unfold processEvents
    apply ih
    have hd := firedInv_fireDue timeoutMs e.time 3 h
    cases e with
    | data t d => exact firedInv_handleData t d hd
    | exited t c => exact firedInv_handleExit t c hd

/-- After the final timer drain, the carriage-return write has happened if
and only if it was ever scheduled. -/
theorem trustFired_iff_scheduled (timeoutMs : Nat) (events : List Event) :
    (runTrialState timeoutMs events).trustFired =
      (runTrialState timeoutMs events).trustAt.isSome := by
  unfold runTrialState
  set st0 := processEvents timeoutMs initState events with hst0
  set stF := drainTimers timeoutMs 3 st0 with hstF
  have hfi : FiredInv stF :=
    firedInv_drainTimers timeoutMs 3
      (firedInv_processEvents timeoutMs events firedInv_init)
  have hnone : nextTimer timeoutMs stF = none :=
    drain_completes 3 st0 (pendCount_le_three timeoutMs st0)
  obtain ⟨_, htr, _⟩ := nextTimer_none hnone
  unfold trustDl at htr
  rcases hat : stF.trustAt with _ | x
  · rcases hfd : stF.trustFired with _ | _
    · rfl
    · have hx := hfi hfd
      rw [hat] at hx
      cases hx
  · rcases hfd : stF.trustFired with _ | _ <;> rw [hfd] at htr
    · rw [hat] at htr
      simp at htr
    · rfl

theorem trust_stable_processEvents (timeoutMs : Nat) (events : List Event)
    {st : TrialState} {x : Nat} (hh : st.trustPromptHandled = true)
    (ha : st.trustAt = some x) :
    (processEvents timeoutMs st events).trustPromptHandled = true ∧
    (processEvents timeoutMs st events).trustAt = some x := by
  induction events generalizing st with
  | nil => exact ⟨hh, ha⟩
  | cons e rest ih =>
    cases e with
    | data t d =>
      unfold processEvents
      simp only [Event.time, handleEvent]
      obtain ⟨f1, f2, f3⟩ := fireDue_trust timeoutMs t 3 st
      obtain ⟨h1, h2, h3, h4⟩ := handleData_trust t d (fireDue timeoutMs t 3 st)
      apply ih
      · rw [h2, f1, hh]
        rfl
      · rw [h3, f1, f2, hh]
        simp [ha]
    | exited t c =>
      unfold processEvents
      simp only [Event.time, handleEvent]
      obtain ⟨f1, f2, f3⟩ := fireDue_trust timeoutMs t 3 st
      obtain ⟨h1, h2, h3, h4⟩ := handleExit_trust t c (fireDue timeoutMs t 3 st)
      apply ih
      · rw [h1, f1]
        exact hh
      · rw [h2, f2]
        exact ha

/-- C9: the carriage-return auto-response to the trust prompt is written at
most once per trial: at the end of every trial the response has been written
exactly when the trust-prompt text occurs in the accumulated output; the
write is scheduled once, 100 ms after the chunk that first completes the
prompt text, and once the prompt is handled the scheduled deadline survives
all later chunks, exits and timer firings unchanged, so the timer is never
re-armed however often the prompt text recurs. -/
theorem c9_trust_prompt_once (timeoutMs t x : Nat) (events rest : List Event)
    (d : List Char) (st st2 : TrialState) :
    ((runTrialState timeoutMs events).trustFired =
      hasSub (runTrialState timeoutMs events).output trustText) ∧
    (st.trustPromptHandled = false → hasSub (st.output ++ d) trustText = true →
      (handleData t d st).trustPromptHandled = true ∧
      (handleData t d st).trustAt = some (t + 100)) ∧
    (st2.trustPromptHandled = true → st2.trustAt = some x →
      (drainTimers timeoutMs 3 (processEvents timeoutMs st2 rest)).trustPromptHandled = true ∧
      (drainTimers timeoutMs 3 (processEvents timeoutMs st2 rest)).trustAt = some x) := by
  refine ⟨?_, ?_, ?_⟩
  · have h1 := trustFired_iff_scheduled timeoutMs events
    have h2 := trustInv_runTrial timeoutMs events
    rw [h1, h2.2, h2.1]
  · intro hh hd
    obtain ⟨o1, h2, h3, h4⟩ := handleData_trust t d st
    refine ⟨?_, ?_⟩
    · rw [h2, hh, hd]
      rfl
    · rw [h3, hh, hd]
      rfl
  · intro hp ha
    obtain ⟨s1, s2⟩ := trust_stable_processEvents timeoutMs rest hp ha
    obtain ⟨d1, d2, d3⟩ := drainTimers_trust timeoutMs 3 (processEvents timeoutMs st2 rest)
    exact ⟨by rw [d1]; exact s1, by rw [d2]; exact s2⟩

theorem c9_trust_prompt_once_witness :
    ((handleData 3 (str "Do you trust the files in this folder?") initState).trustPromptHandled = true ∧
      (handleData 3 (str "Do you trust the files in this folder?") initState).trustAt = some (3 + 100)) ∧
    ((drainTimers 30000 3 (processEvents 30000
        (handleData 3 (str "Do you trust the files in this folder?") initState)
        [Event.data 40 (str "Do you trust the files in this folder?")])).trustPromptHandled = true ∧
      (drainTimers 30000 3 (processEvents 30000
        (handleData 3 (str "Do you trust the files in this folder?") initState)
        [Event.data 40 (str "Do you trust the files in this folder?")])).trustAt = some 103) :=
  ⟨(c9_trust_prompt_once 30000 3 103
      [] [Event.data 40 (str "Do you trust the files in this folder?")]
      (str "Do you trust the files in this folder?") initState
      (handleData 3 (str "Do you trust the files in this folder?") initState)).2.1
      rfl (by decide),
   (c9_trust_prompt_once 30000 3 103
      [] [Event.data 40 (str "Do you trust the files in this folder?")]
      (str "Do you trust the files in this folder?") initState
      (handleData 3 (str "Do you trust the files in this folder?") initState)).2.2
      (by decide) (by decide)⟩

/-- C4: the three ready signals are matched against each data chunk in
isolation, not against the accumulated buffer required by the spec: when the
bracketed-paste enable sequence is split across two chunks the accumulated
output contains all three signal sequences, yet `bracketedPaste` never
becomes true and the trial falls through to the timeout instead of becoming
ready. -/
theorem c4_split_signal_missed :
    hasSub (concatChunks [Event.data 10 (str "\x1b[?20"),
        Event.data 20 (str "04h\x1b[?1004h> x")]) bpSeq = true ∧
    hasSub (concatChunks [Event.data 10 (str "\x1b[?20"),
        Event.data 20 (str "04h\x1b[?1004h> x")]) focusSeq = true ∧
    (runTrialState 30000 [Event.data 10 (str "\x1b[?20"),
        Event.data 20 (str "04h\x1b[?1004h> x")]).bracketedPaste = false ∧
    (runTrialState 30000 [Event.data 10 (str "\x1b[?20"),
        Event.data 20 (str "04h\x1b[?1004h> x")]).focusEvents = true ∧
    (runTrialState 30000 [Event.data 10 (str "\x1b[?20"),
        Event.data 20 (str "04h\x1b[?1004h> x")]).prompt = true ∧
    (runTrialState 30000 [Event.data 10 (str "\x1b[?20"),
        Event.data 20 (str "04h\x1b[?1004h> x")]).readyDetected = false ∧
    Option.map RunResult.result (runTrialState 30000 [Event.data 10 (str "\x1b[?20"),
        Event.data 20 (str "04h\x1b[?1004h> x")]).resolved = some ResState.timeout := by
  decide

end CvmBenchmark
